import Mathlib

/-!
Verification development for the AIFM player core (paion_player.py):
shallow embedding of the manifest model, the integrity verifier with its
tri-state normalization, and the asset resolver, together with theorems
about the claimed properties.
-/

namespace Paion

/-- Values produced by Python json.loads applied to a manifest member.
JSON object keys are strings; objects keep their stored (insertion)
order as an association list.  JSON numbers are modelled as integers;
the integrity declarations under study only involve integer-valued
fields. -/
inductive JValue where
  | null : JValue
  | bool : Bool → JValue
  | num : Int → JValue
  | str : String → JValue
  | arr : List JValue → JValue
  | obj : List (String × JValue) → JValue

instance : Inhabited JValue := ⟨.null⟩

/-- dict.get on a parsed JSON object (association list): first binding of
the key, if any. -/
def jGetKvs (kvs : List (String × JValue)) (k : String) : Option JValue :=
  (kvs.find? (fun kv => kv.1 == k)).map (fun kv => kv.2)

/-- Python str.lower() (ASCII; the member names and manifest fields the
claims involve are ASCII).  Written over the character list so that the
kernel can evaluate it on literals. -/
def strLower (s : String) : String := String.mk (s.toList.map Char.toLower)

/-- str.split(sep) for a one-character separator, over the character
list (Python semantics: "".split(".") = [""], consecutive separators
yield empty parts). -/
def splitOnCharAux (sep : Char) : List Char → List Char → List String
  | [], acc => [String.mk acc.reverse]
  | c :: cs, acc =>
    if c = sep then String.mk acc.reverse :: splitOnCharAux sep cs []
    else splitOnCharAux sep cs (c :: acc)

/-- str.split(sep), one-character separator. -/
def splitOnChar (sep : Char) (s : String) : List String :=
  splitOnCharAux sep s.toList []

/-- str.startswith. -/
def strStarts (s pre : String) : Bool := pre.toList.isPrefixOf s.toList

/-- str.endswith. -/
def strEnds (s suf : String) : Bool := suf.toList.isSuffixOf s.toList

/-- Python truthiness bool(v) of a json.loads value: None, False, 0, "",
the empty list and the empty dict are falsy; everything else is truthy. -/
def pyTruthy : JValue → Bool
  | .null => false
  | .bool b => b
  | .num n => n != 0
  | .str s => s != ""
  | .arr xs => !xs.isEmpty
  | .obj kvs => !kvs.isEmpty

mutual
/-- Python repr() of a json.loads value (str() except that strings are
quoted).  Nested values only appear in reason strings; the exact
escaping of exotic strings is irrelevant to the claims. -/
def pyRepr : JValue → String
  | .null => "None"
  | .bool true => "True"
  | .bool false => "False"
  | .num n => toString n
  | .str s => "'" ++ s ++ "'"
  | .arr xs => "[" ++ String.intercalate ", " (pyReprList xs) ++ "]"
  | .obj kvs => "\x7b" ++ String.intercalate ", " (pyReprKvs kvs) ++ "\x7d"

def pyReprList : List JValue → List String
  | [] => []
  | x :: xs => pyRepr x :: pyReprList xs

def pyReprKvs : List (String × JValue) → List String
  | [] => []
  | kv :: kvs => ("'" ++ kv.1 ++ "': " ++ pyRepr kv.2) :: pyReprKvs kvs
end

/-- Python str() of a json.loads value. -/
def pyStr : JValue → String
  | .str s => s
  | v => pyRepr v

/-- Python isinstance(v, int) view of a json.loads value: in Python,
bool is a subclass of int, so True/False count as the integers 1/0.
Returns none for values that are not ints (including floats, which do
not occur in the integer-valued declarations modelled here). -/
def pyIntOf : JValue → Option Int
  | .num n => some n
  | .bool b => some (if b then 1 else 0)
  | _ => none

/-! ## Manifest model: safe_get and the metadata lookup chains -/

/-- Body of safe_get (paion_player.py lines 109-116) after the path has
been split on ".": walk the parts; a missing key or a non-dict
intermediate returns the default. -/
def safe_getParts (cur : JValue) (parts : List String) (default : JValue) : JValue :=
  match parts with
  | [] => cur
  | p :: ps =>
    match cur with
    | .obj kvs =>
      match jGetKvs kvs p with
      | some v => safe_getParts v ps default
      | none => default
    | _ => default

/-- safe_get(d, path, default): Python splits the dotted path on "." and
walks nested dicts.  The call sites in get_track_info pass no default,
i.e. default = None, modelled as JValue.null. -/
def safe_get (d : JValue) (path : String) (default : JValue) : JValue :=
  safe_getParts d (splitOnChar '.' path) default

/-- The metadata lookup chains of get_track_info (lines 400-414), e.g.
safe_get(manifest, "creator.name") or safe_get(manifest, "author") or
default: Python's `or` returns its first truthy operand, else the last
operand (the default). -/
def lookupChain (m : JValue) (cands : List String) (default : JValue) : JValue :=
  match cands with
  | [] => default
  | p :: rest =>
    let v := safe_get m p .null
    if pyTruthy v then v else lookupChain m rest default

/-- The author chain of get_track_info line 400 (the sentinel placeholder
is the em-dash string). -/
def author_field (m : JValue) : JValue :=
  lookupChain m ["creator.name", "author"] (.str "—")

/-- Resolution of one dotted-path candidate, distinguishing "not found"
(missing key / non-dict intermediate) from a found value.  Used only by
the spec-side lookup below. -/
def resolveParts : JValue → List String → Option JValue
  | cur, [] => some cur
  | cur, p :: ps =>
    match cur with
    | .obj kvs =>
      match jGetKvs kvs p with
      | some v => resolveParts v ps
      | none => none
    | _ => none

/-- Modelled from the spec's words (§4.2): lookup "tries each dotted path
in order ... returns the first candidate that resolves to a non-null
value, else default".  Stated only to compare against the code's
lookupChain. -/
def lookup_spec (m : JValue) (cands : List String) (default : JValue) : JValue :=
  match cands with
  | [] => default
  | p :: rest =>
    match resolveParts m (splitOnChar '.' p) with
    | some .null => lookup_spec m rest default
    | some v => v
    | none => lookup_spec m rest default

/-! ## normalize_verify -/

/-- One entry of the `details` list handed to normalize_verify: the dicts
built in get_track_info always carry the keys "ok", "path", "reason". -/
structure VDetail where
  ok : Bool
  path : String
  reason : String
deriving DecidableEq

/-- normalize_verify (lines 119-138): the v0.6+ tri-state rule.  Returns
(ok, status_label, manifest_warn). -/
def normalize_verify (details : List VDetail) (original_ok : Bool) : Bool × String × Bool :=
  let fails := details.filter (fun d => !d.ok)
  if fails.isEmpty then
    ((if original_ok then true else false), (if original_ok then "INTACT" else "TAMPERED"), false)
  else
    let non_manifest_fails := fails.filter (fun f => f.path != "manifest.json")
    let manifest_fails := fails.filter (fun f => f.path == "manifest.json")
    if !non_manifest_fails.isEmpty then
      (false, "TAMPERED", false)
    else if !manifest_fails.isEmpty then
      (true, "INTACT (MANIFEST WARN)", true)
    else
      ((if original_ok then true else false), (if original_ok then "INTACT" else "TAMPERED"), false)

/-! ## Builtin integrity verifier -/

/-- Raw bytes of an archive member. -/
abbrev Bytes := List Nat

/-- An opened zip archive: its members in stored order, each a name with
its decompressed bytes (names are unique in the archives under study). -/
abbrev Archive := List (String × Bytes)

/-- z.namelist(). -/
def namelist (z : Archive) : List String := z.map (fun m => m.1)

/-- z.read(name) for a member, none when the name is absent (the code
always guards reads by a membership test on namelist, so absence never
raises here). -/
def zread (z : Archive) (n : String) : Option Bytes :=
  (z.find? (fun m => m.1 == n)).map (fun m => m.2)

/-- The container as handed to builtin_verify_aifm: opening the path
either raises (not a zip, unreadable, ...), modelled by `invalid` with
the exception text str(e), or yields an archive. -/
inductive ZipSource where
  | invalid : String → ZipSource
  | valid : Archive → ZipSource

/-- BuiltinCheck (lines 143-147). -/
structure BuiltinCheck where
  ok : Bool
  path : String
  reason : String
deriving DecidableEq

/-- manifest.get("integrity", {}) if isinstance(manifest, dict) else {}
(line 166). -/
def integrityOf (manifest : JValue) : JValue :=
  match manifest with
  | .obj kvs => (jGetKvs kvs "integrity").getD (.obj [])
  | _ => .obj []

/-- integrity.get("algorithm", "sha256") (line 167). -/
def algoOf (ikvs : List (String × JValue)) : JValue :=
  (jGetKvs ikvs "algorithm").getD (.str "sha256")

/-- integrity.get("hashed_files", {}) (line 168). -/
def hashedFilesOf (ikvs : List (String × JValue)) : JValue :=
  (jGetKvs ikvs "hashed_files").getD (.obj [])

/-- isinstance(v, dict). -/
def jIsDict : JValue → Bool
  | .obj _ => true
  | _ => false

/-- The items of a parsed JSON object, in stored order (empty for
non-dicts; only used behind an isinstance(dict) test, like
hashed_files.items()). -/
def jEntries : JValue → List (String × JValue)
  | .obj kvs => kvs
  | _ => []

/-- Python type name of a json.loads value, as it appears in the
AttributeError text when integrity is not a dict and integrity.get is
called; only the check's path "builtin_verify" matters to the claims. -/
def pyTypeName : JValue → String
  | .null => "NoneType"
  | .bool _ => "bool"
  | .num _ => "int"
  | .str _ => "str"
  | .arr _ => "list"
  | .obj _ => "dict"

/-- str(e) for the AttributeError raised by integrity.get when the
manifest's "integrity" value is not a dict; caught by the outer handler
of builtin_verify_aifm. -/
def attrErrorReason (v : JValue) : String :=
  "'" ++ pyTypeName v ++ "' object has no attribute 'get'"

/-- expected_hash for one hashed_files entry (lines 197-200):
str(meta.get("sha256", "")).lower() when meta is a dict, else "". -/
def expectedHash (meta : JValue) : String :=
  match meta with
  | .obj kvs => strLower (pyStr ((jGetKvs kvs "sha256").getD (.str "")))
  | _ => ""

/-- expected_bytes for one hashed_files entry (lines 198-201):
meta.get("bytes", None) when meta is a dict, else None. -/
def expectedBytes (meta : JValue) : Option JValue :=
  match meta with
  | .obj kvs => jGetKvs kvs "bytes"
  | _ => none

/-- The declared size an entry carries, through Python's
isinstance(expected_bytes, int) lens (bool counting as int): none when
no size check will be performed. -/
def sizeDeclared (meta : JValue) : Option Int :=
  match expectedBytes meta with
  | some bv => pyIntOf bv
  | none => none

/-- The digest comparison of one entry (lines 210-215): h =
sha256(data).hexdigest().lower(); fail iff a non-empty expected hash
differs from it. -/
def digestCheck (sha256hex : Bytes → String) (data : Bytes) (relpath : String)
    (expected_hash : String) : BuiltinCheck :=
  if expected_hash ≠ "" ∧ strLower (sha256hex data) ≠ expected_hash then
    ⟨false, relpath, "sha256 mismatch"⟩
  else
    ⟨true, relpath, ""⟩

/-- The single CheckResult one hashed_files entry produces (loop body,
lines 187-215).  JSON object keys are always strings, so the
"invalid path key" branch for non-string keys is unreachable for
manifests coming from json.loads and is not modelled. -/
def entryCheck (sha256hex : Bytes → String) (z : Archive) (relpath : String)
    (meta : JValue) : BuiltinCheck :=
  match zread z relpath with
  | none => ⟨false, relpath, "missing file"⟩
  | some data =>
    match expectedBytes meta with
    | some bv =>
      match pyIntOf bv with
      | some n =>
        if (data.length : Int) ≠ n then
          ⟨false, relpath, "bytes mismatch: " ++ toString data.length ++ " != " ++ pyStr bv⟩
        else
          digestCheck sha256hex data relpath (expectedHash meta)
      | none => digestCheck sha256hex data relpath (expectedHash meta)
    | none => digestCheck sha256hex data relpath (expectedHash meta)

/-- Loop state of builtin_verify_aifm: the accumulated checks plus the
two failure flags (lines 176-177). -/
structure VState where
  checks : List BuiltinCheck
  nonManifestFailed : Bool
  manifestFailed : Bool

/-- record_fail (lines 179-185): appends the failing check and raises the
flag that matches the path (a raised flag stays raised, hence the ||). -/
def recordFail (st : VState) (path reason : String) : VState :=
  { st with
    checks := st.checks ++ [⟨false, path, reason⟩],
    nonManifestFailed := st.nonManifestFailed || !(path == "manifest.json"),
    manifestFailed := st.manifestFailed || (path == "manifest.json") }

/-- One iteration of the hashed_files loop: every branch appends exactly
the entry's CheckResult, failing branches through record_fail. -/
def stepEntry (sha256hex : Bytes → String) (z : Archive) (st : VState)
    (e : String × JValue) : VState :=
  if (entryCheck sha256hex z e.1 e.2).ok then
    { st with checks := st.checks ++ [entryCheck sha256hex z e.1 e.2] }
  else
    recordFail st (entryCheck sha256hex z e.1 e.2).path (entryCheck sha256hex z e.1 e.2).reason

/-- The per-entry loop and final verdict (lines 176-221): run all declared
entries, then ok is false exactly when some non-manifest path failed. -/
def verifyEntries (sha256hex : Bytes → String) (z : Archive)
    (entries : List (String × JValue)) : Bool × List BuiltinCheck :=
  let st := entries.foldl (stepEntry sha256hex z) ⟨[], false, false⟩
  if st.nonManifestFailed then (false, st.checks) else (true, st.checks)

/-- Lines 166-221: from the parsed manifest onwards. -/
def verifyManifest (sha256hex : Bytes → String) (z : Archive) (manifest : JValue) :
    Bool × List BuiltinCheck :=
  match integrityOf manifest with
  | .obj ikvs =>
    if strLower (pyStr (algoOf ikvs)) ≠ "sha256" then
      (false, [⟨false, "integrity.algorithm", "unsupported algorithm: " ++ pyStr (algoOf ikvs)⟩])
    else if !jIsDict (hashedFilesOf ikvs) || (jEntries (hashedFilesOf ikvs)).isEmpty then
      (false, [⟨false, "integrity.hashed_files", "missing/empty hashed_files"⟩])
    else
      verifyEntries sha256hex z (jEntries (hashedFilesOf ikvs))
  | v => (false, [⟨false, "builtin_verify", attrErrorReason v⟩])

/-- Lines 160-165: membership test and json.loads of manifest.json inside
an opened archive. -/
def verifyArchive (jsonLoads : Bytes → Except String JValue) (sha256hex : Bytes → String)
    (z : Archive) : Bool × List BuiltinCheck :=
  match zread z "manifest.json" with
  | none => (false, [⟨false, "manifest.json", "missing manifest.json"⟩])
  | some raw =>
    match jsonLoads raw with
    | .error e => (false, [⟨false, "builtin_verify", e⟩])
    | .ok manifest => verifyManifest sha256hex z manifest

/-- builtin_verify_aifm (lines 150-224).  jsonLoads models json.loads on
the manifest bytes (error = the parse exception's text, caught by the
outer handler); sha256hex models hashlib.sha256(...).hexdigest(). -/
def builtin_verify_aifm (jsonLoads : Bytes → Except String JValue)
    (sha256hex : Bytes → String) (src : ZipSource) : Bool × List BuiltinCheck :=
  match src with
  | .invalid e => (false, [⟨false, "builtin_verify", e⟩])
  | .valid z => verifyArchive jsonLoads sha256hex z

/-- The dict get_track_info builds from one check (lines 440-444 and
451): the external results are attribute objects with ok/path/reason,
and str(r) if r else "" is the identity on strings. -/
def toDetail (c : BuiltinCheck) : VDetail := ⟨c.ok, c.path, c.reason⟩

/-- The verify sub-dict of a track's info (lines 385, 437-453). -/
structure VerifyInfo where
  ok : Bool
  status : String
  details : List VDetail
  available : Bool
  engine : String
deriving DecidableEq

/-- Behaviour of the external verifier capability on a given container:
either it raises (message = str(e)) or it returns (ok, results). -/
abbrev ExternalResult := Except String (Bool × List BuiltinCheck)

/-- The verify computation of PaionState.get_track_info (lines 437-453):
external verify_aifm.py when the capability is loaded (its exceptions
caught and converted), else the builtin verifier; both normalized by
normalize_verify. -/
def get_track_info_verify (external : Option ExternalResult)
    (jsonLoads : Bytes → Except String JValue) (sha256hex : Bytes → String)
    (src : ZipSource) : VerifyInfo :=
  match external with
  | some (.error e) =>
    ⟨false, "ERROR", [⟨false, "verify_aifm.py", e⟩], true, "verify_aifm.py"⟩
  | some (.ok (ok, results)) =>
    let details := results.map toDetail
    let r := normalize_verify details ok
    ⟨r.1, r.2.1, details, true, "verify_aifm.py"⟩
  | none =>
    let br := builtin_verify_aifm jsonLoads sha256hex src
    let details := br.2.map toDetail
    let r := normalize_verify details br.1
    ⟨r.1, r.2.1, details, true, "builtin"⟩

/-! ## Asset resolver: choose_member_by_ext -/

/-- pathlib's Path(s).name for the member paths in play: the part after
the last "/". -/
def basenameOf (s : String) : String :=
  (splitOnChar '/' s).getLastD s

/-- Index of the last occurrence of a character (str.rfind). -/
def lastIdxOf (c : Char) : List Char → Option Nat
  | [] => none
  | x :: xs =>
    match lastIdxOf c xs with
    | some i => some (i + 1)
    | none => if x = c then some 0 else none

/-- pathlib's Path(s).suffix: the extension of the final component,
empty when the last dot is the first or last character of the name. -/
def pathSuffix (s : String) : String :=
  let name := basenameOf s
  let cs := name.toList
  match lastIdxOf '.' cs with
  | some i => if 0 < i ∧ i + 1 < cs.length then String.mk (cs.drop i) else ""
  | none => ""

/-- Auxiliary for Python's `needle in hay`. -/
def infixAt (nd : List Char) : List Char → Bool
  | [] => nd.isEmpty
  | c :: cs => nd.isPrefixOf (c :: cs) || infixAt nd cs

/-- Python's substring test `needle in hay`. -/
def containsSub (hay needle : String) : Bool :=
  infixAt needle.toList hay.toList

/-- ext_rank (lines 252-257): index of the lowercased path's suffix in
the priority list, 999 when absent (list.index raising ValueError). -/
def extRank (exts_priority : List String) (n : String) : Nat :=
  match exts_priority.findIdx? (fun e => e == pathSuffix (strLower n)) with
  | some i => i
  | none => 999

/-- Code points of a string, for Python's lexicographic string order. -/
def codes (s : String) : List Nat :=
  s.toList.map Char.toNat

/-- Lexicographic ≤ on code-point lists (Python string comparison). -/
def lexLeN : List Nat → List Nat → Bool
  | [], _ => true
  | _ :: _, [] => false
  | a :: as, b :: bs =>
    if a < b then true else if b < a then false else lexLeN as bs

/-- The sort key order of line 261: tuples (ext_rank(s), s.lower())
compared lexicographically, as Python's sorted does. -/
def keyLe (exts_priority : List String) (a b : String) : Bool :=
  let ra := extRank exts_priority a
  let rb := extRank exts_priority b
  if ra < rb then true
  else if rb < ra then false
  else lexLeN (codes (strLower a)) (codes (strLower b))

/-- has_hint (lines 248-250): the lowercased member path contains one of
the hint substrings. -/
def hasHint (hint_substrings : List String) (n : String) : Bool :=
  hint_substrings.any (fun h => containsSub (strLower n) h)

/-- Line 235: non-directory, non-empty member names. -/
def membersOf (z : Archive) : List String :=
  (namelist z).filter (fun n => (n != "") && !(strEnds n "/"))

/-- Lines 236-243: members whose lowercased path starts with an allowed
prefix and whose lowercased suffix is in the priority list. -/
def candidatesOf (z : Archive) (pfxs exts_priority : List String) : List String :=
  (membersOf z).filter (fun n =>
    let ln := strLower n
    pfxs.any (fun p => strStarts ln p) && exts_priority.contains (pathSuffix ln))

/-- Line 259: the hinted subset (empty when no hints are given). -/
def hintedOf (z : Archive) (pfxs exts_priority hint_substrings : List String) : List String :=
  (candidatesOf z pfxs exts_priority).filter
    (fun n => !hint_substrings.isEmpty && hasHint hint_substrings n)

/-- Line 260: pool = hinted if hinted else candidates. -/
def poolOf (z : Archive) (pfxs exts_priority hint_substrings : List String) : List String :=
  if (hintedOf z pfxs exts_priority hint_substrings).isEmpty then
    candidatesOf z pfxs exts_priority
  else
    hintedOf z pfxs exts_priority hint_substrings

/-- choose_member_by_ext (lines 229-262).  Python's sorted is a stable
sort by the key order keyLe; List.insertionSort with the same total
preorder is stable in the same sense. -/
def choose_member_by_ext (z : Archive) (pfxs exts_priority hint_substrings : List String) :
    Option String :=
  if (candidatesOf z pfxs exts_priority).isEmpty then none
  else
    (List.insertionSort (fun a b => keyLe exts_priority a b = true)
      (poolOf z pfxs exts_priority hint_substrings)).head?

/-- find_declaration_member_anyname (lines 282-287). -/
def find_declaration_member_anyname (z : Archive) : Option String :=
  choose_member_by_ext z ["metadata/"] [".pdf", ".txt"]
    ["declar", "legal", "license", "statement"]

/-- find_prompt_member_anyname (lines 289-294). -/
def find_prompt_member_anyname (z : Archive) : Option String :=
  choose_member_by_ext z ["metadata/"] [".txt"]
    ["prompt", "suno", "udio", "instruction"]

/-- find_lyrics_member_anyname (lines 296-300). -/
def find_lyrics_member_anyname (z : Archive) : Option String :=
  choose_member_by_ext z ["metadata/"] [".txt"]
    ["lyric", "lyrics", "words", "verse"]

/-- Modelled from the spec's words (§4.4 steps 3-5): hint matching and
the sort key use the candidate's FILENAME (lowercased), not its full
member path.  Stated only to compare against choose_member_by_ext. -/
def choose_member_spec (z : Archive) (pfxs exts_priority hint_substrings : List String) :
    Option String :=
  let candidates := candidatesOf z pfxs exts_priority
  if candidates.isEmpty then none
  else
    let hinted := candidates.filter
      (fun n => !hint_substrings.isEmpty && hasHint hint_substrings (basenameOf n))
    let pool := if hinted.isEmpty then candidates else hinted
    (List.insertionSort
      (fun a b =>
        (if extRank exts_priority a < extRank exts_priority b then true
         else if extRank exts_priority b < extRank exts_priority a then false
         else lexLeN (codes (strLower (basenameOf a))) (codes (strLower (basenameOf b)))) = true)
      pool).head?

/-! ## Concrete example containers (used by witnesses and counterexamples) -/

/-- A json.loads that returns a fixed parsed manifest (the manifest bytes
are irrelevant once parsing is fixed). -/
def jlConst (v : JValue) : Bytes → Except String JValue := fun _ => .ok v

/-- A json.loads that always raises. -/
def jlErr : Bytes → Except String JValue := fun _ => .error "Expecting value: line 1 column 1 (char 0)"

/-- A sha256 stand-in: hex digest "aa" for the byte string [7], "cc"
otherwise (any concrete function works; the claims hold for all). -/
def shaW : Bytes → String := fun b => if b == [7] then "aa" else "cc"

/-- Example integrity block: sha256 algorithm, two declared files. -/
def ikvsW : List (String × JValue) :=
  [("algorithm", .str "sha256"),
   ("hashed_files", .obj
     [("payload/a.wav", .obj [("sha256", .str "AA"), ("bytes", .num 1)]),
      ("manifest.json", .obj [("sha256", .str "bb")])])]

/-- Example manifest carrying ikvsW. -/
def mW : JValue := .obj [("integrity", .obj ikvsW)]

/-- Example archive matching mW except for the manifest entry's digest. -/
def zW : Archive := [("manifest.json", [0]), ("payload/a.wav", [7])]

/-- Manifest whose declared algorithm is not sha256. -/
def mAlg : JValue := .obj [("integrity", .obj [("algorithm", .str "MD5")])]

/-- Manifest with no integrity block at all. -/
def mEmpty : JValue := .obj []

/-- Manifest for the lookup counterexample: creator.name is the empty
string (non-null but falsy), author is "Bob". -/
def mEx : JValue := .obj [("creator", .obj [("name", .str "")]), ("author", .str "Bob")]

/-- Archive with both a .txt and a .pdf declaration candidate and no
hint match (the spec's tie-break example). -/
def zDecl : Archive :=
  [("manifest.json", [0]), ("metadata/decl.txt", []), ("metadata/decl.pdf", [])]

/-- Archive where a hint substring ("legal") occurs in a candidate's
directory part but in no candidate's filename. -/
def zHint : Archive := [("metadata/legal/z.pdf", []), ("metadata/a.pdf", [])]

/-- The declaration hint substrings (line 285). -/
def declHints : List String := ["declar", "legal", "license", "statement"]

/-! ## Helper lemmas -/

theorem digestCheck_path (sha : Bytes → String) (data : Bytes) (p eh : String) :
    (digestCheck sha data p eh).path = p := by
  unfold digestCheck
  split <;> rfl

theorem entryCheck_path (sha : Bytes → String) (z : Archive) (p : String) (meta : JValue) :
    (entryCheck sha z p meta).path = p := by
  unfold entryCheck
  split
  · rfl
  · split
    · split
      · split
        · rfl
        · exact digestCheck_path ..
      · exact digestCheck_path ..
    · exact digestCheck_path ..

theorem stepEntry_checks (sha : Bytes → String) (z : Archive) (st : VState)
    (e : String × JValue) :
    (stepEntry sha z st e).checks = st.checks ++ [entryCheck sha z e.1 e.2] := by
  cases hc : entryCheck sha z e.1 e.2 with
  | mk ok path reason =>
    unfold stepEntry recordFail
    rw [hc]
    cases ok <;> rfl

theorem foldl_stepEntry_checks (sha : Bytes → String) (z : Archive) :
    ∀ (es : List (String × JValue)) (st : VState),
      (es.foldl (stepEntry sha z) st).checks
        = st.checks ++ es.map (fun e => entryCheck sha z e.1 e.2) := by
  intro es
  induction es with
  | nil => intro st; simp
  | cons e es ih =>
    intro st
    rw [List.foldl_cons, ih, stepEntry_checks]
    simp

theorem foldl_nm_exists (sha : Bytes → String) (z : Archive) :
    ∀ (es : List (String × JValue)) (st : VState),
      (st.nonManifestFailed = true → ∃ c ∈ st.checks, c.ok = false) →
      ((es.foldl (stepEntry sha z) st).nonManifestFailed = true →
        ∃ c ∈ (es.foldl (stepEntry sha z) st).checks, c.ok = false) := by
  intro es
  induction es with
  | nil => intro st h; exact h
  | cons e es ih =>
    intro st h
    refine ih (stepEntry sha z st e) ?_
    intro hnm
    cases hc : entryCheck sha z e.1 e.2 with
    | mk ok path reason =>
      cases ok with
      | true =>
        have hstep : stepEntry sha z st e
            = { st with checks := st.checks ++ [⟨true, path, reason⟩] } := by
          unfold stepEntry
          rw [hc]
          rfl
        rw [hstep] at hnm ⊢
        obtain ⟨c, hcm, hco⟩ := h hnm
        exact ⟨c, by simp [hcm], hco⟩
      | false =>
        refine ⟨⟨false, path, reason⟩, ?_, rfl⟩
        rw [stepEntry_checks, hc]
        simp

/-! Stage equations for builtin_verify_aifm. -/

theorem builtin_invalid (jl : Bytes → Except String JValue) (sh : Bytes → String) (e : String) :
    builtin_verify_aifm jl sh (.invalid e) = (false, [⟨false, "builtin_verify", e⟩]) := rfl

theorem builtin_valid (jl : Bytes → Except String JValue) (sh : Bytes → String) (z : Archive) :
    builtin_verify_aifm jl sh (.valid z) = verifyArchive jl sh z := rfl

theorem verifyArchive_no_manifest (jl : Bytes → Except String JValue) (sh : Bytes → String)
    (z : Archive) (h : zread z "manifest.json" = none) :
    verifyArchive jl sh z = (false, [⟨false, "manifest.json", "missing manifest.json"⟩]) := by
  unfold verifyArchive
  rw [h]

theorem verifyArchive_parse_error (jl : Bytes → Except String JValue) (sh : Bytes → String)
    (z : Archive) (raw : Bytes) (e : String)
    (h1 : zread z "manifest.json" = some raw) (h2 : jl raw = .error e) :
    verifyArchive jl sh z = (false, [⟨false, "builtin_verify", e⟩]) := by
  unfold verifyArchive
  rw [h1]
  dsimp only
  rw [h2]

theorem verifyArchive_parsed (jl : Bytes → Except String JValue) (sh : Bytes → String)
    (z : Archive) (raw : Bytes) (m : JValue)
    (h1 : zread z "manifest.json" = some raw) (h2 : jl raw = .ok m) :
    verifyArchive jl sh z = verifyManifest sh z m := by
  unfold verifyArchive
  rw [h1]
  dsimp only
  rw [h2]

theorem verifyManifest_bad_algo (sh : Bytes → String) (z : Archive) (m : JValue)
    (ikvs : List (String × JValue)) (hi : integrityOf m = .obj ikvs)
    (ha : strLower (pyStr (algoOf ikvs)) ≠ "sha256") :
    verifyManifest sh z m =
      (false, [⟨false, "integrity.algorithm",
        "unsupported algorithm: " ++ pyStr (algoOf ikvs)⟩]) := by
  unfold verifyManifest
  rw [hi]
  dsimp only
  rw [if_pos ha]

theorem verifyManifest_bad_hashed (sh : Bytes → String) (z : Archive) (m : JValue)
    (ikvs : List (String × JValue)) (hi : integrityOf m = .obj ikvs)
    (ha : strLower (pyStr (algoOf ikvs)) = "sha256")
    (hh : (!jIsDict (hashedFilesOf ikvs) || (jEntries (hashedFilesOf ikvs)).isEmpty) = true) :
    verifyManifest sh z m =
      (false, [⟨false, "integrity.hashed_files", "missing/empty hashed_files"⟩]) := by
  unfold verifyManifest
  rw [hi]
  dsimp only
  rw [if_neg (by simp [ha]), if_pos hh]

theorem verifyManifest_entries (sh : Bytes → String) (z : Archive) (m : JValue)
    (ikvs : List (String × JValue)) (hi : integrityOf m = .obj ikvs)
    (ha : strLower (pyStr (algoOf ikvs)) = "sha256")
    (hh : (!jIsDict (hashedFilesOf ikvs) || (jEntries (hashedFilesOf ikvs)).isEmpty) = false) :
    verifyManifest sh z m = verifyEntries sh z (jEntries (hashedFilesOf ikvs)) := by
  unfold verifyManifest
  rw [hi]
  dsimp only
  rw [if_neg (by simp [ha]), if_neg (Bool.eq_false_iff.mp hh)]

theorem verifyEntries_checks (sh : Bytes → String) (z : Archive)
    (entries : List (String × JValue)) :
    (verifyEntries sh z entries).2 = entries.map (fun e => entryCheck sh z e.1 e.2) := by
  simp only [verifyEntries]
  split <;> simpa using foldl_stepEntry_checks sh z entries ⟨[], false, false⟩

theorem verifyEntries_false_exists (sh : Bytes → String) (z : Archive)
    (entries : List (String × JValue)) (h : (verifyEntries sh z entries).1 = false) :
    ∃ c ∈ (verifyEntries sh z entries).2, c.ok = false := by
  simp only [verifyEntries] at h ⊢
  by_cases hnm : (entries.foldl (stepEntry sh z) ⟨[], false, false⟩).nonManifestFailed = true
  · rw [if_pos hnm]
    exact foldl_nm_exists sh z entries ⟨[], false, false⟩ (by intro hx; cases hx) hnm
  · rw [if_neg hnm] at h
    cases h

theorem norm_no_fail (details : List VDetail) (ok0 : Bool)
    (h : ∀ d ∈ details, d.ok = true) :
    normalize_verify details ok0 = (ok0, if ok0 then "INTACT" else "TAMPERED", false) := by
  unfold normalize_verify
  have hf : details.filter (fun d => !d.ok) = [] := by
    rw [List.filter_eq_nil_iff]
    intro a ha
    simp [h a ha]
  rw [hf]
  cases ok0 <;> simp

theorem norm_nonmanifest (details : List VDetail) (ok0 : Bool)
    (h : ∃ d ∈ details, d.ok = false ∧ d.path ≠ "manifest.json") :
    normalize_verify details ok0 = (false, "TAMPERED", false) := by
  obtain ⟨d, hd, hok, hp⟩ := h
  unfold normalize_verify
  have h1 : d ∈ details.filter (fun d => !d.ok) := by
    simp [List.mem_filter, hd, hok]
  have h2 : d ∈ (details.filter (fun d => !d.ok)).filter (fun f => f.path != "manifest.json") := by
    simp [List.mem_filter, hd, hok, hp]
  have hfne : (details.filter (fun d => !d.ok)).isEmpty = false :=
    List.isEmpty_eq_false.mpr (List.ne_nil_of_mem h1)
  have hnm : ((details.filter (fun d => !d.ok)).filter
      (fun f => f.path != "manifest.json")).isEmpty = false :=
    List.isEmpty_eq_false.mpr (List.ne_nil_of_mem h2)
  simp only [hfne, hnm]
  rfl

theorem norm_manifest_only (details : List VDetail) (ok0 : Bool)
    (h1 : ∃ d ∈ details, d.ok = false)
    (h2 : ∀ d ∈ details, d.ok = false → d.path = "manifest.json") :
    normalize_verify details ok0 = (true, "INTACT (MANIFEST WARN)", true) := by
  obtain ⟨d, hd, hok⟩ := h1
  unfold normalize_verify
  have hdf : d ∈ details.filter (fun d => !d.ok) := by
    simp [List.mem_filter, hd, hok]
  have hfne : (details.filter (fun d => !d.ok)).isEmpty = false :=
    List.isEmpty_eq_false.mpr (List.ne_nil_of_mem hdf)
  have hnme : (details.filter (fun d => !d.ok)).filter (fun f => f.path != "manifest.json") = [] := by
    rw [List.filter_eq_nil_iff]
    intro f hf
    rw [List.mem_filter] at hf
    have : f.path = "manifest.json" := h2 f hf.1 (by simpa using hf.2)
    simp [this]
  have hmf : d ∈ (details.filter (fun d => !d.ok)).filter (fun f => f.path == "manifest.json") := by
    have := h2 d hd hok
    simp [List.mem_filter, hd, hok, this]
  have hmne : ((details.filter (fun d => !d.ok)).filter
      (fun f => f.path == "manifest.json")).isEmpty = false :=
    List.isEmpty_eq_false.mpr (List.ne_nil_of_mem hmf)
  simp only [hfne, hnme, hmne]
  rfl

/-! ## C1 -/

/-- C1 (amended): for every check list, normalization yields: with no
failing check, ok mirrors the verifier's own top-level flag (INTACT when
it reported ok, TAMPERED when it reported not-ok — an external verifier
may report ok=false with an all-ok list); any failing check with a
non-manifest path gives ok=false/TAMPERED; failing checks that are all
keyed manifest.json give ok=true/"INTACT (MANIFEST WARN)".  Moreover the
builtin verifier never reports top-level ok=false alongside an all-ok
check list, so for builtin-produced lists no-failure does imply INTACT. -/
theorem C1_normalize_tristate :
    (∀ (details : List VDetail) (ok0 : Bool),
      ((∀ d ∈ details, d.ok = true) →
        normalize_verify details ok0 = (ok0, if ok0 then "INTACT" else "TAMPERED", false)) ∧
      ((∃ d ∈ details, d.ok = false ∧ d.path ≠ "manifest.json") →
        normalize_verify details ok0 = (false, "TAMPERED", false)) ∧
      ((∃ d ∈ details, d.ok = false) ∧ (∀ d ∈ details, d.ok = false → d.path = "manifest.json") →
        normalize_verify details ok0 = (true, "INTACT (MANIFEST WARN)", true))) ∧
    (∀ (jsonLoads : Bytes → Except String JValue) (sha256hex : Bytes → String) (src : ZipSource),
      (builtin_verify_aifm jsonLoads sha256hex src).1 = false →
      ∃ c ∈ (builtin_verify_aifm jsonLoads sha256hex src).2, c.ok = false) := by
  constructor
  · intro details ok0
    exact ⟨norm_no_fail details ok0,
           norm_nonmanifest details ok0,
           fun h => norm_manifest_only details ok0 h.1 h.2⟩
  · intro jsonLoads sha256hex src
    cases src with
    | invalid e =>
      rw [builtin_invalid]
      intro _
      exact ⟨⟨false, "builtin_verify", e⟩, by simp, rfl⟩
    | valid z =>
      rw [builtin_valid]
      cases hm : zread z "manifest.json" with
      | none =>
        rw [verifyArchive_no_manifest jsonLoads sha256hex z hm]
        intro _
        exact ⟨⟨false, "manifest.json", "missing manifest.json"⟩, by simp, rfl⟩
      | some raw =>
        cases hj : jsonLoads raw with
        | error e =>
          rw [verifyArchive_parse_error jsonLoads sha256hex z raw e hm hj]
          intro _
          exact ⟨⟨false, "builtin_verify", e⟩, by simp, rfl⟩
        | ok manifest =>
          rw [verifyArchive_parsed jsonLoads sha256hex z raw manifest hm hj]
          cases hi : integrityOf manifest with
          | obj ikvs =>
            by_cases ha : strLower (pyStr (algoOf ikvs)) = "sha256"
            · by_cases hh : (!jIsDict (hashedFilesOf ikvs)
                  || (jEntries (hashedFilesOf ikvs)).isEmpty) = true
              · rw [verifyManifest_bad_hashed sha256hex z manifest ikvs hi ha hh]
                intro _
                exact ⟨⟨false, "integrity.hashed_files", "missing/empty hashed_files"⟩,
                  by simp, rfl⟩
              · rw [verifyManifest_entries sha256hex z manifest ikvs hi ha
                  (Bool.eq_false_iff.mpr hh)]
                exact verifyEntries_false_exists sha256hex z _
            · rw [verifyManifest_bad_algo sha256hex z manifest ikvs hi ha]
              intro _
              exact ⟨⟨false, "integrity.algorithm",
                "unsupported algorithm: " ++ pyStr (algoOf ikvs)⟩, by simp, rfl⟩
          | null =>
            unfold verifyManifest
            rw [hi]
            intro _
            exact ⟨⟨false, "builtin_verify", attrErrorReason .null⟩, by simp, rfl⟩
          | bool b =>
            unfold verifyManifest
            rw [hi]
            intro _
            exact ⟨⟨false, "builtin_verify", attrErrorReason (.bool b)⟩, by simp, rfl⟩
          | num n =>
            unfold verifyManifest
            rw [hi]
            intro _
            exact ⟨⟨false, "builtin_verify", attrErrorReason (.num n)⟩, by simp, rfl⟩
          | str s =>
            unfold verifyManifest
            rw [hi]
            intro _
            exact ⟨⟨false, "builtin_verify", attrErrorReason (.str s)⟩, by simp, rfl⟩
          | arr xs =>
            unfold verifyManifest
            rw [hi]
            intro _
            exact ⟨⟨false, "builtin_verify", attrErrorReason (.arr xs)⟩, by simp, rfl⟩

/-- C1 counterexample: a check list with no failing check at all (here the
empty list, as a pluggable external verifier returning (False, []) hands
to normalization) yields ok=false and status TAMPERED, not ok=true and
INTACT, because the code mirrors the verifier's top-level flag. -/
theorem C1_normalize_tristate_cex :
    normalize_verify [] false = (false, "TAMPERED", false) ∧
    get_track_info_verify (some (.ok (false, []))) (fun _ => .error "")
        (fun _ => "") (.invalid "") =
      ⟨false, "TAMPERED", [], true, "verify_aifm.py"⟩ :=
  ⟨rfl, rfl⟩

/-- C1 witness: the three normalization cases and the builtin flag
invariant, at concrete inputs. -/
theorem C1_normalize_tristate_witness :
    normalize_verify [⟨false, "manifest.json", "sha256 mismatch"⟩] true =
      (true, "INTACT (MANIFEST WARN)", true) ∧
    normalize_verify [⟨false, "payload/a.wav", "missing file"⟩] true =
      (false, "TAMPERED", false) ∧
    normalize_verify [⟨true, "payload/a.wav", ""⟩] true = (true, "INTACT", false) ∧
    (∃ c ∈ (builtin_verify_aifm (fun _ => .error "bad json") (fun _ => "")
        (.invalid "not a zip")).2, c.ok = false) :=
  ⟨(C1_normalize_tristate.1 _ true).2.2 ⟨by decide, by decide⟩,
   (C1_normalize_tristate.1 _ true).2.1 (by decide),
   (C1_normalize_tristate.1 _ true).1 (by decide),
   C1_normalize_tristate.2 _ _ _ rfl⟩

/-! ## C2 -/

/-- C2: when the integrity preconditions hold (manifest member present
and parsing, integrity a dict, algorithm sha256, hashed_files a
non-empty mapping), the builtin verifier's check list is exactly the
entry-wise map over the declared hashed_files entries in stored order:
one CheckResult per entry, the i-th check coming from the i-th declared
entry (and keyed by its path), so a failing entry never suppresses or
omits the checks of the remaining entries. -/
theorem C2_builtin_checks_all_entries
    (jl : Bytes → Except String JValue) (sh : Bytes → String) (z : Archive)
    (raw : Bytes) (m : JValue) (ikvs : List (String × JValue))
    (h1 : zread z "manifest.json" = some raw)
    (h2 : jl raw = .ok m)
    (h3 : integrityOf m = .obj ikvs)
    (h4 : strLower (pyStr (algoOf ikvs)) = "sha256")
    (h5 : jIsDict (hashedFilesOf ikvs) = true)
    (h6 : (jEntries (hashedFilesOf ikvs)).isEmpty = false) :
    (builtin_verify_aifm jl sh (.valid z)).2
      = (jEntries (hashedFilesOf ikvs)).map (fun e => entryCheck sh z e.1 e.2) ∧
    (builtin_verify_aifm jl sh (.valid z)).2.length
      = (jEntries (hashedFilesOf ikvs)).length ∧
    (∀ i : Nat, (builtin_verify_aifm jl sh (.valid z)).2[i]?
      = ((jEntries (hashedFilesOf ikvs))[i]?).map (fun e => entryCheck sh z e.1 e.2)) ∧
    (∀ i : Nat, ((builtin_verify_aifm jl sh (.valid z)).2[i]?).map (fun c => c.path)
      = (((jEntries (hashedFilesOf ikvs))[i]?).map (fun e => e.1))) := by
  have hh : (!jIsDict (hashedFilesOf ikvs) || (jEntries (hashedFilesOf ikvs)).isEmpty) = false := by
    rw [h5, h6]
    rfl
  have hb : builtin_verify_aifm jl sh (.valid z)
      = verifyEntries sh z (jEntries (hashedFilesOf ikvs)) := by
    rw [builtin_valid, verifyArchive_parsed jl sh z raw m h1 h2,
        verifyManifest_entries sh z m ikvs h3 h4 hh]
  rw [hb, verifyEntries_checks]
  refine ⟨rfl, by simp, fun i => by simp, fun i => ?_⟩
  rw [List.getElem?_map]
  cases (jEntries (hashedFilesOf ikvs))[i]? with
  | none => rfl
  | some e => simp [entryCheck_path]

/-- C2 witness: on the concrete container zW with manifest mW, both
declared entries are checked in stored order, the first passing and the
second (manifest.json) failing, with no early stop. -/
theorem C2_builtin_checks_all_entries_witness :
    (builtin_verify_aifm (jlConst mW) shaW (.valid zW)).2
      = (jEntries (hashedFilesOf ikvsW)).map (fun e => entryCheck shaW zW e.1 e.2) ∧
    (builtin_verify_aifm (jlConst mW) shaW (.valid zW)).2.length = 2 ∧
    (builtin_verify_aifm (jlConst mW) shaW (.valid zW)).2
      = [⟨true, "payload/a.wav", ""⟩, ⟨false, "manifest.json", "sha256 mismatch"⟩] := by
  have h := C2_builtin_checks_all_entries (jlConst mW) shaW zW [0] mW ikvsW
    rfl rfl rfl (by decide) rfl rfl
  exact ⟨h.1, by rw [h.2.1]; rfl, by decide⟩

/-! ## C3 -/

/-- C3: each integrity precondition failure produces exactly one
CheckResult and no per-file checks: a missing manifest member yields the
single check (manifest.json, false, "missing manifest.json"); an
algorithm present but not "sha256" case-insensitively yields the single
check (integrity.algorithm, false, "unsupported algorithm: <value>");
hashed_files missing, not a mapping, or empty yields the single check
(integrity.hashed_files, false, "missing/empty hashed_files"). -/
theorem C3_precondition_single_check :
    (∀ (jl : Bytes → Except String JValue) (sh : Bytes → String) (z : Archive),
      zread z "manifest.json" = none →
      builtin_verify_aifm jl sh (.valid z)
        = (false, [⟨false, "manifest.json", "missing manifest.json"⟩])) ∧
    (∀ (jl : Bytes → Except String JValue) (sh : Bytes → String) (z : Archive)
       (raw : Bytes) (m a : JValue) (ikvs : List (String × JValue)),
      zread z "manifest.json" = some raw → jl raw = .ok m →
      integrityOf m = .obj ikvs → jGetKvs ikvs "algorithm" = some a →
      strLower (pyStr a) ≠ "sha256" →
      builtin_verify_aifm jl sh (.valid z)
        = (false, [⟨false, "integrity.algorithm", "unsupported algorithm: " ++ pyStr a⟩])) ∧
    (∀ (jl : Bytes → Except String JValue) (sh : Bytes → String) (z : Archive)
       (raw : Bytes) (m : JValue) (ikvs : List (String × JValue)),
      zread z "manifest.json" = some raw → jl raw = .ok m →
      integrityOf m = .obj ikvs →
      strLower (pyStr (algoOf ikvs)) = "sha256" →
      (!jIsDict (hashedFilesOf ikvs) || (jEntries (hashedFilesOf ikvs)).isEmpty) = true →
      builtin_verify_aifm jl sh (.valid z)
        = (false, [⟨false, "integrity.hashed_files", "missing/empty hashed_files"⟩])) := by
  refine ⟨?_, ?_, ?_⟩
  · intro jl sh z h
    rw [builtin_valid, verifyArchive_no_manifest jl sh z h]
  · intro jl sh z raw m a ikvs h1 h2 h3 h4 h5
    have ha : algoOf ikvs = a := by
      unfold algoOf
      rw [h4]
      rfl
    rw [builtin_valid, verifyArchive_parsed jl sh z raw m h1 h2,
        verifyManifest_bad_algo sh z m ikvs h3 (ha ▸ h5), ha]
  · intro jl sh z raw m ikvs h1 h2 h3 h4 h5
    rw [builtin_valid, verifyArchive_parsed jl sh z raw m h1 h2,
        verifyManifest_bad_hashed sh z m ikvs h3 h4 h5]

/-- C3 witness: the three precondition failures at concrete containers:
an archive with no manifest member, a manifest declaring algorithm
"MD5", and a manifest with no integrity block (hence empty
hashed_files). -/
theorem C3_precondition_single_check_witness :
    builtin_verify_aifm (jlConst mW) shaW (.valid [("payload/x.wav", [1])])
      = (false, [⟨false, "manifest.json", "missing manifest.json"⟩]) ∧
    builtin_verify_aifm (jlConst mAlg) shaW (.valid zW)
      = (false, [⟨false, "integrity.algorithm", "unsupported algorithm: MD5"⟩]) ∧
    builtin_verify_aifm (jlConst mEmpty) shaW (.valid zW)
      = (false, [⟨false, "integrity.hashed_files", "missing/empty hashed_files"⟩]) :=
  ⟨C3_precondition_single_check.1 (jlConst mW) shaW _ rfl,
   C3_precondition_single_check.2.1 (jlConst mAlg) shaW zW [0] mAlg (.str "MD5")
     [("algorithm", .str "MD5")] rfl rfl rfl rfl (by decide),
   C3_precondition_single_check.2.2 (jlConst mEmpty) shaW zW [0] mEmpty []
     rfl rfl rfl (by decide) rfl⟩

/-! ## C4 -/

/-- C4: an archive whose manifest member is present and parses but whose
integrity.hashed_files is missing, not a mapping, or empty normalizes to
ok=false with status TAMPERED (not the manifest warn), because the
single failing check is keyed integrity.hashed_files, a non-manifest
path. -/
theorem C4_empty_hashed_files_tampered
    (jl : Bytes → Except String JValue) (sh : Bytes → String) (z : Archive)
    (raw : Bytes) (m : JValue) (ikvs : List (String × JValue))
    (h1 : zread z "manifest.json" = some raw)
    (h2 : jl raw = .ok m)
    (h3 : integrityOf m = .obj ikvs)
    (h4 : strLower (pyStr (algoOf ikvs)) = "sha256")
    (h5 : (!jIsDict (hashedFilesOf ikvs) || (jEntries (hashedFilesOf ikvs)).isEmpty) = true) :
    get_track_info_verify none jl sh (.valid z)
      = ⟨false, "TAMPERED",
          [⟨false, "integrity.hashed_files", "missing/empty hashed_files"⟩],
          true, "builtin"⟩ := by
  have hb : builtin_verify_aifm jl sh (.valid z)
      = (false, [⟨false, "integrity.hashed_files", "missing/empty hashed_files"⟩]) := by
    rw [builtin_valid, verifyArchive_parsed jl sh z raw m h1 h2,
        verifyManifest_bad_hashed sh z m ikvs h3 h4 h5]
  unfold get_track_info_verify
  rw [hb]
  rfl

/-- C4 witness: the manifest with no integrity block, evaluated through
the full pipeline. -/
theorem C4_empty_hashed_files_tampered_witness :
    get_track_info_verify none (jlConst mEmpty) shaW (.valid zW)
      = ⟨false, "TAMPERED",
          [⟨false, "integrity.hashed_files", "missing/empty hashed_files"⟩],
          true, "builtin"⟩ :=
  C4_empty_hashed_files_tampered (jlConst mEmpty) shaW zW [0] mEmpty []
    rfl rfl rfl (by decide) rfl

/-! ## C5 -/

/-- C5: for a declared entry whose member exists, a declared integer size
(in Python's isinstance-int sense) differing from the actual byte count
makes the entry's CheckResult the bytes-mismatch failure; the statement
holds for EVERY hash function sha, so no SHA-256 digest comparison is
performed or reported for the entry, even when the digest also
differs. -/
theorem C5_bytes_before_digest
    (sha : Bytes → String) (z : Archive) (relpath : String) (meta bv : JValue)
    (n : Int) (data : Bytes)
    (hmem : zread z relpath = some data)
    (hbv : expectedBytes meta = some bv)
    (hn : pyIntOf bv = some n)
    (hne : (data.length : Int) ≠ n) :
    entryCheck sha z relpath meta
      = ⟨false, relpath,
          "bytes mismatch: " ++ toString data.length ++ " != " ++ pyStr bv⟩ := by
  unfold entryCheck
  rw [hmem]
  dsimp only
  rw [hbv]
  dsimp only
  rw [hn]
  dsimp only
  rw [if_pos hne]

/-- C5 witness: a 1-byte member declared with bytes=5 and a wrong digest
reports "bytes mismatch: 1 != 5" (and not a sha256 mismatch). -/
theorem C5_bytes_before_digest_witness :
    entryCheck shaW zW "payload/a.wav" (.obj [("sha256", .str "zz"), ("bytes", .num 5)])
      = ⟨false, "payload/a.wav", "bytes mismatch: 1 != 5"⟩ :=
  C5_bytes_before_digest shaW zW "payload/a.wav" _ (.num 5) 5 [7]
    rfl rfl rfl (by decide)

/-! ## C10 -/

/-- C10: for a declared entry whose member exists: metadata that is not a
mapping yields no declared size and no declared digest; when the
declared size is not an integer the size check is skipped (the entry's
result is exactly the digest-only check); when the declared digest is
missing or empty the digest check is skipped, so the entry passes
whenever no integer size is declared, or the declared integer size
matches. -/
theorem C10_skipped_checks
    (sha : Bytes → String) (z : Archive) (relpath : String) (meta : JValue)
    (data : Bytes) (hmem : zread z relpath = some data) :
    (jIsDict meta = false → sizeDeclared meta = none ∧ expectedHash meta = "") ∧
    (sizeDeclared meta = none →
      entryCheck sha z relpath meta = digestCheck sha data relpath (expectedHash meta)) ∧
    (expectedHash meta = "" → sizeDeclared meta = none →
      entryCheck sha z relpath meta = ⟨true, relpath, ""⟩) ∧
    (∀ n : Int, expectedHash meta = "" → sizeDeclared meta = some n →
      (data.length : Int) = n →
      entryCheck sha z relpath meta = ⟨true, relpath, ""⟩) := by
  have hskip : sizeDeclared meta = none →
      entryCheck sha z relpath meta = digestCheck sha data relpath (expectedHash meta) := by
    intro hs
    unfold entryCheck
    rw [hmem]
    dsimp only
    unfold sizeDeclared at hs
    cases hb : expectedBytes meta with
    | none => rfl
    | some bv =>
      rw [hb] at hs
      dsimp only at hs
      dsimp only
      rw [hs]
  refine ⟨?_, hskip, ?_, ?_⟩
  · intro hd
    cases meta with
    | obj kvs => cases hd
    | null => exact ⟨rfl, rfl⟩
    | bool b => exact ⟨rfl, rfl⟩
    | num n => exact ⟨rfl, rfl⟩
    | str s => exact ⟨rfl, rfl⟩
    | arr xs => exact ⟨rfl, rfl⟩
  · intro hh hs
    rw [hskip hs]
    unfold digestCheck
    rw [hh]
    rfl
  · intro n hh hs hlen
    unfold entryCheck
    rw [hmem]
    dsimp only
    unfold sizeDeclared at hs
    cases hb : expectedBytes meta with
    | none =>
      unfold digestCheck
      rw [hh]
      rfl
    | some bv =>
      rw [hb] at hs
      dsimp only at hs
      dsimp only
      rw [hs]
      dsimp only
      rw [if_neg (by rw [hlen]; exact fun h => h rfl)]
      unfold digestCheck
      rw [hh]
      rfl

/-- C10 witness: an entry with null metadata (no usable digest, no
integer size) passes as soon as the member exists; an entry carrying
only an empty digest and no size passes too. -/
theorem C10_skipped_checks_witness :
    entryCheck shaW zW "payload/a.wav" .null = ⟨true, "payload/a.wav", ""⟩ ∧
    entryCheck shaW zW "payload/a.wav" (.obj [("sha256", .str "")])
      = ⟨true, "payload/a.wav", ""⟩ :=
  ⟨(C10_skipped_checks shaW zW "payload/a.wav" .null [7] rfl).2.2.1 rfl rfl,
   (C10_skipped_checks shaW zW "payload/a.wav" (.obj [("sha256", .str "")]) [7]
     rfl).2.2.1 rfl rfl⟩

/-! ## C6 -/

/-- C6 (amended): the metadata lookup chain tries the candidates in
order (a missing key or a non-mapping intermediate makes a candidate
resolve to None) and returns the value of the first candidate that
resolves to a TRUTHY value under Python truthiness — null, false, zero,
the empty string, the empty array and the empty object are all skipped,
not only null — and returns the default exactly when no candidate
resolves to a truthy value. -/
theorem C6_lookup_first_truthy (m : JValue) (cands : List String) (default : JValue) :
    lookupChain m cands default
      = ((cands.map (fun p => safe_get m p .null)).filter (fun v => pyTruthy v)).headD
          default := by
  induction cands with
  | nil => rfl
  | cons p rest ih =>
    by_cases h : pyTruthy (safe_get m p .null) = true
    · simp [lookupChain, h]
    · simp only [Bool.not_eq_true] at h
      simp [lookupChain, h, ih]

/-- C6 counterexample: with creator.name = "" (non-null but falsy) and
author = "Bob", the code's chain skips the empty string and returns
"Bob", while the claimed first-non-null rule returns "". -/
theorem C6_lookup_first_truthy_cex :
    author_field mEx = .str "Bob" ∧
    lookup_spec mEx ["creator.name", "author"] (.str "—") = .str "" ∧
    pyStr (author_field mEx)
      ≠ pyStr (lookup_spec mEx ["creator.name", "author"] (.str "—")) :=
  ⟨rfl, rfl, by decide⟩

/-! ## C7 -/

/-- C7: whenever the external verifier capability is present and raises
during verification, the caller receives ok=false, status ERROR,
available=true, engine verify_aifm.py, and a single failing detail
naming the external verifier with the exception message as reason; the
exception never propagates (the embedding is a total function whose
error branch is exactly this value). -/
theorem C7_external_exception_converted (jl : Bytes → Except String JValue)
    (sh : Bytes → String) (src : ZipSource) (e : String) :
    get_track_info_verify (some (.error e)) jl sh src
      = ⟨false, "ERROR", [⟨false, "verify_aifm.py", e⟩], true, "verify_aifm.py"⟩ := rfl

/-! ## C8 -/

/-- C8 (amended): when opening/reading the container fails in the builtin
verification path, the failure is recovered locally — the caller
receives the well-formed outcome ok=false with a single failing check
keyed builtin_verify carrying the exception text — but its normalized
status is TAMPERED (builtin_verify is a non-manifest path), not ERROR or
UNKNOWN. -/
theorem C8_archive_error_recovered (jl : Bytes → Except String JValue)
    (sh : Bytes → String) (e : String) :
    get_track_info_verify none jl sh (.invalid e)
      = ⟨false, "TAMPERED", [⟨false, "builtin_verify", e⟩], true, "builtin"⟩ := rfl

/-- C8 counterexample: on a path that is not a valid archive the outcome
status is TAMPERED — neither ERROR nor UNKNOWN as claimed. -/
theorem C8_archive_error_recovered_cex :
    (get_track_info_verify none jlErr shaW (.invalid "File is not a zip file")).status
      = "TAMPERED" ∧
    ¬((get_track_info_verify none jlErr shaW (.invalid "File is not a zip file")).status
        = "ERROR" ∨
      (get_track_info_verify none jlErr shaW (.invalid "File is not a zip file")).status
        = "UNKNOWN") :=
  ⟨rfl, by decide⟩

/-! ## C9: order lemmas for the sort key, then the resolver theorem -/

theorem lexLeN_total : ∀ as bs : List Nat, lexLeN as bs = true ∨ lexLeN bs as = true := by
  intro as
  induction as with
  | nil => intro bs; exact Or.inl rfl
  | cons a as ih =>
    intro bs
    cases bs with
    | nil => exact Or.inr rfl
    | cons b bs =>
      by_cases h1 : a < b
      · exact Or.inl (by unfold lexLeN; rw [if_pos h1])
      · by_cases h2 : b < a
        · exact Or.inr (by unfold lexLeN; rw [if_pos h2])
        · cases ih bs with
          | inl h => exact Or.inl (by unfold lexLeN; rw [if_neg h1, if_neg h2]; exact h)
          | inr h => exact Or.inr (by unfold lexLeN; rw [if_neg h2, if_neg h1]; exact h)

theorem lexLeN_trans : ∀ as bs cs : List Nat,
    lexLeN as bs = true → lexLeN bs cs = true → lexLeN as cs = true := by
  intro as
  induction as with
  | nil => intro bs cs _ _; rfl
  | cons a as ih =>
    intro bs cs h1 h2
    cases bs with
    | nil => exact absurd h1 (by simp [lexLeN])
    | cons b bs =>
      cases cs with
      | nil => exact absurd h2 (by simp [lexLeN])
      | cons c cs =>
        unfold lexLeN at h1 h2 ⊢
        by_cases hab : a < b
        · by_cases hbc : b < c
          · rw [if_pos (Nat.lt_trans hab hbc)]
          · by_cases hcb : c < b
            · rw [if_neg hbc, if_pos hcb] at h2
              exact absurd h2 (by simp)
            · have hbc2 : b = c := by omega
              rw [if_pos (hbc2 ▸ hab)]
        · by_cases hba : b < a
          · rw [if_neg hab, if_pos hba] at h1
            exact absurd h1 (by simp)
          · have hab2 : a = b := by omega
            subst hab2
            by_cases hac : a < c
            · rw [if_pos hac]
            · by_cases hca : c < a
              · rw [if_neg hac, if_pos hca] at h2
                exact absurd h2 (by simp)
              · rw [if_neg hab, if_neg hba] at h1
                rw [if_neg hac, if_neg hca] at h2
                rw [if_neg hac, if_neg hca]
                exact ih bs cs h1 h2

theorem keyLe_total (exts : List String) (a b : String) :
    keyLe exts a b = true ∨ keyLe exts b a = true := by
  unfold keyLe
  by_cases h1 : extRank exts a < extRank exts b
  · exact Or.inl (by rw [if_pos h1])
  · by_cases h2 : extRank exts b < extRank exts a
    · exact Or.inr (by rw [if_pos h2])
    · cases lexLeN_total (codes (strLower a)) (codes (strLower b)) with
      | inl h => exact Or.inl (by rw [if_neg h1, if_neg h2]; exact h)
      | inr h => exact Or.inr (by rw [if_neg h2, if_neg h1]; exact h)

theorem keyLe_trans (exts : List String) (a b c : String)
    (h1 : keyLe exts a b = true) (h2 : keyLe exts b c = true) : keyLe exts a c = true := by
  unfold keyLe at h1 h2 ⊢
  by_cases hab : extRank exts a < extRank exts b
  · by_cases hbc : extRank exts b < extRank exts c
    · rw [if_pos (Nat.lt_trans hab hbc)]
    · by_cases hcb : extRank exts c < extRank exts b
      · rw [if_neg hbc, if_pos hcb] at h2
        exact absurd h2 (by simp)
      · have hbc2 : extRank exts b = extRank exts c := by omega
        rw [if_pos (hbc2 ▸ hab)]
  · by_cases hba : extRank exts b < extRank exts a
    · rw [if_neg hab, if_pos hba] at h1
      exact absurd h1 (by simp)
    · have hab2 : extRank exts a = extRank exts b := by omega
      by_cases hbc : extRank exts b < extRank exts c
      · rw [if_pos (hab2 ▸ hbc)]
      · by_cases hcb : extRank exts c < extRank exts b
        · rw [if_neg hbc, if_pos hcb] at h2
          exact absurd h2 (by simp)
        · have hbc2 : extRank exts b = extRank exts c := by omega
          rw [if_neg hab, if_neg hba] at h1
          rw [if_neg hbc, if_neg hcb] at h2
          have hac : ¬ extRank exts a < extRank exts c := by omega
          have hca : ¬ extRank exts c < extRank exts a := by omega
          rw [if_neg hac, if_neg hca]
          exact lexLeN_trans _ _ _ h1 h2

theorem sort_head_min (exts : List String) (l : List String) (m : String) (rest : List String)
    (h : List.insertionSort (fun a b => keyLe exts a b = true) l = m :: rest) :
    ∀ a ∈ l, keyLe exts m a = true := by
  haveI : IsTotal String (fun a b => keyLe exts a b = true) := ⟨keyLe_total exts⟩
  haveI : IsTrans String (fun a b => keyLe exts a b = true) :=
    ⟨fun x y z hx hy => keyLe_trans exts x y z hx hy⟩
  intro a ha
  have hmem : a ∈ List.insertionSort (fun a b => keyLe exts a b = true) l :=
    (List.mem_insertionSort _).mpr ha
  rw [h] at hmem
  have hs := List.sorted_insertionSort (fun a b => keyLe exts a b = true) l
  rw [h] at hs
  cases List.mem_cons.mp hmem with
  | inl he =>
    subst he
    cases keyLe_total exts a a with
    | inl hx => exact hx
    | inr hx => exact hx
  | inr hr => exact (List.sorted_cons.mp hs).1 a hr

theorem poolOf_ne_nil (z : Archive) (pfxs exts hints : List String)
    (h : candidatesOf z pfxs exts ≠ []) : poolOf z pfxs exts hints ≠ [] := by
  unfold poolOf
  split
  · exact h
  · rename_i hh
    intro he
    rw [he] at hh
    exact hh rfl

theorem sortPool_ne_nil (exts : List String) (l : List String) (h : l ≠ []) :
    List.insertionSort (fun a b => keyLe exts a b = true) l ≠ [] := by
  intro h0
  have hp := List.perm_insertionSort (fun a b => keyLe exts a b = true) l
  rw [h0] at hp
  exact h (List.Perm.eq_nil hp.symm)

/-- C9 (amended): for declaration/prompt/lyrics resolution, the candidate
pool is the non-directory members whose lowercased path starts with an
allowed prefix and whose extension is in the kind's priority list; if
any candidate's full lowercased MEMBER PATH (not only its filename)
contains a hint substring, the pool is restricted to those candidates;
the pool is sorted by (extension priority rank ascending, full
lowercased member path ascending) and the first element is returned —
none exactly when there is no candidate.  In particular, with
metadata/decl.txt and metadata/decl.pdf both present and no hint
matching, declaration resolution returns the .pdf member. -/
theorem C9_choose_member :
    (∀ (z : Archive) (pfxs exts hints : List String),
      (choose_member_by_ext z pfxs exts hints = none ↔ candidatesOf z pfxs exts = []) ∧
      (hintedOf z pfxs exts hints ≠ [] →
        poolOf z pfxs exts hints = hintedOf z pfxs exts hints) ∧
      (∀ mem, choose_member_by_ext z pfxs exts hints = some mem →
        mem ∈ poolOf z pfxs exts hints ∧
        ∀ m2 ∈ poolOf z pfxs exts hints, keyLe exts mem m2 = true)) ∧
    find_declaration_member_anyname zDecl = some "metadata/decl.pdf" := by
  constructor
  · intro z pfxs exts hints
    refine ⟨?_, ?_, ?_⟩
    · unfold choose_member_by_ext
      by_cases hc : (candidatesOf z pfxs exts).isEmpty = true
      · rw [if_pos hc]
        simp [List.isEmpty_iff.mp hc]
      · rw [if_neg hc]
        have hcne : candidatesOf z pfxs exts ≠ [] := by
          intro he
          exact hc (by rw [he]; rfl)
        have hsne := sortPool_ne_nil exts (poolOf z pfxs exts hints)
          (poolOf_ne_nil z pfxs exts hints hcne)
        constructor
        · intro hhead
          cases hsort : List.insertionSort (fun a b => keyLe exts a b = true)
              (poolOf z pfxs exts hints) with
          | nil => exact absurd hsort hsne
          | cons x xs =>
            rw [hsort] at hhead
            cases hhead
        · intro hcand
          exact absurd hcand hcne
    · intro hne
      unfold poolOf
      rw [if_neg (by rw [List.isEmpty_eq_false.mpr hne]; exact Bool.false_ne_true)]
    · intro mem hmem
      unfold choose_member_by_ext at hmem
      by_cases hc : (candidatesOf z pfxs exts).isEmpty = true
      · rw [if_pos hc] at hmem
        cases hmem
      · rw [if_neg hc] at hmem
        cases hsort : List.insertionSort (fun a b => keyLe exts a b = true)
            (poolOf z pfxs exts hints) with
        | nil =>
          rw [hsort] at hmem
          cases hmem
        | cons x xs =>
          rw [hsort] at hmem
          have hxm : x = mem := by
            simpa using hmem
          subst hxm
          constructor
          · have hx : x ∈ List.insertionSort (fun a b => keyLe exts a b = true)
                (poolOf z pfxs exts hints) := by
              rw [hsort]
              exact List.mem_cons_self x xs
            exact (List.mem_insertionSort _).mp hx
          · exact sort_head_min exts (poolOf z pfxs exts hints) x xs hsort
  · decide

/-- C9 counterexample: the hint substring "legal" occurs only in the
directory part of metadata/legal/z.pdf; the code restricts the pool by
matching hints against the FULL member path and returns
metadata/legal/z.pdf, while the claimed filename-based rule finds no
hinted candidate and returns metadata/a.pdf. -/
theorem C9_choose_member_cex :
    choose_member_by_ext zHint ["metadata/"] [".pdf", ".txt"] declHints
      = some "metadata/legal/z.pdf" ∧
    choose_member_spec zHint ["metadata/"] [".pdf", ".txt"] declHints
      = some "metadata/a.pdf" ∧
    (some "metadata/legal/z.pdf" : Option String) ≠ some "metadata/a.pdf" :=
  ⟨by decide, by decide, by decide⟩

/-- C9 witness: on the archive with decl.txt and decl.pdf, the returned
member metadata/decl.pdf is in the pool and minimal for the key order
(pdf ranks before txt). -/
theorem C9_choose_member_witness :
    ("metadata/decl.pdf" ∈ poolOf zDecl ["metadata/"] [".pdf", ".txt"] declHints ∧
      ∀ m2 ∈ poolOf zDecl ["metadata/"] [".pdf", ".txt"] declHints,
        keyLe [".pdf", ".txt"] "metadata/decl.pdf" m2 = true) ∧
    find_declaration_member_anyname zDecl = some "metadata/decl.pdf" :=
  ⟨(C9_choose_member.1 zDecl ["metadata/"] [".pdf", ".txt"] declHints).2.2
      "metadata/decl.pdf" (by decide),
   C9_choose_member.2⟩

end Paion
